import Mathlib

/-!
Verification of the Black & White Filesystem (BWFS) core against its
natural-language specification.

The definitions below are a shallow embedding of the C sources:
  * `src/core/allocation.c`  (worst-fit allocator over the block bitmap)
  * `src/core/inode.c`       (inode store and resize)
  * `src/core/dir.c`         (single-block directories)
  * `src/core/bwfs_common.c` (superblock persistence)
  * `src/core/bitmap.c`      (bitmap persistence)
  * `src/util/bmp_io.c`      (raw-binary block files, the I/O backend
                              selected by the build)
  * `src/cli/mkfs_bwfs.c`    (formatter, the getopt `-b` variant)
  * `src/cli/fsck_bwfs.c`    (consistency checker)
  * `src/fuse/bwfs.c`        (only `op_unlink`'s bitmap effect)

Machine integers are modelled as `Nat`; the only sentinel that matters is
`UINT32_MAX`, kept as the literal `2^32 - 1`.  The host directory of block
files is modelled as a total map from block index to a file (a length plus
a byte function); a missing file is a file of length 0, which every reader
rejects exactly as `verify_file_size` does.  C functions that mutate
through pointers become pure functions returning the new state.
-/

/-- Numeric value of `UINT32_MAX`, the allocator's failure sentinel. -/
def UINT32_MAX : Nat := 4294967295

/-- Constant `BWFS_MAGIC` from `bwfs_common.h`. -/
def BWFS_MAGIC : Nat := 0x42465753

/-- Constant `BWFS_BLOCK_SIZE_BITS` (1000 * 1000). -/
def BWFS_BLOCK_SIZE_BITS : Nat := 1000000

/-- Constant `BWFS_BLOCK_SIZE_BYTES` (125000). -/
def BWFS_BLOCK_SIZE_BYTES : Nat := 125000

/-- Constant `BWFS_DIRECT_BLOCKS` (10 direct pointers per inode). -/
def BWFS_DIRECT_BLOCKS : Nat := 10

/-- Constant `BWFS_NAME_MAX` (255 name bytes, excluding the NUL). -/
def BWFS_NAME_MAX : Nat := 255

/-- Return code `BWFS_OK`. -/
def BWFS_OK : Int := 0

/-- Return code `BWFS_ERR_IO` (named `IOE` here). -/
def BWFS_ERR_IOE : Int := -5

/-- Return code `BWFS_ERR_NOMEM`. -/
def BWFS_ERR_NOMEM : Int := -6

/-- Return code `BWFS_ERR_FULL`. -/
def BWFS_ERR_FULL : Int := -7

/-- Value `bwfs_dir_remove` reports when the name is absent: the C function
returns `UINT32_MAX` from an `int`-returning function, which converts to
`-1` on the two's-complement targets the project builds for. -/
def DIR_NOT_FOUND : Int := -1

/-- The in-RAM block bitmap `bwfs_bitmap_t`.  The C struct stores the bits
packed in a byte buffer accessed only through `bwfs_bm_test` /
`bwfs_bm_set`; the buffer is modelled as the bit function `map`. -/
structure bwfs_bitmap_t where
  total_blocks : Nat
  map : Nat → Bool

/-- Inline helper `bwfs_bm_test` from `bitmap.h`: 1 iff block `blk` is in
use. -/
def bwfs_bm_test (bm : bwfs_bitmap_t) (blk : Nat) : Bool :=
  bm.map blk

/-- Inline helper `bwfs_bm_set` from `bitmap.h`. -/
def bwfs_bm_set (bm : bwfs_bitmap_t) (blk : Nat) (val : Bool) : bwfs_bitmap_t :=
  { bm with map := fun j => if j = blk then val else bm.map j }

/-- Loop state of `find_worst_fit` (`allocation.c`): the best region seen
so far and the free region currently being scanned. -/
structure WFState where
  best_start : Nat
  best_len : Nat
  cur_start : Nat
  cur_len : Nat

/-- One iteration of the scan loop of `find_worst_fit` at block `i`. -/
def wfStep (bm : bwfs_bitmap_t) (min_len : Nat) (st : WFState) (i : Nat) : WFState :=
  if bwfs_bm_test bm i = false then
    { st with
      cur_start := if st.cur_len = 0 then i else st.cur_start,
      cur_len := st.cur_len + 1 }
  else
    if min_len ≤ st.cur_len ∧ st.best_len < st.cur_len then
      { best_start := st.cur_start, best_len := st.cur_len,
        cur_start := st.cur_start, cur_len := 0 }
    else
      { st with cur_len := 0 }

/-- Static function `find_worst_fit` of `allocation.c`: scan the bitmap for
the longest free region of length at least `min_len` (first such region on
ties), also checking the region that reaches the end of the bitmap.
Returns `(out_start, out_len)`. -/
def find_worst_fit (bm : bwfs_bitmap_t) (min_len : Nat) : Nat × Nat :=
  let st := (List.range bm.total_blocks).foldl (wfStep bm min_len) ⟨UINT32_MAX, 0, 0, 0⟩
  if min_len ≤ st.cur_len ∧ st.best_len < st.cur_len then (st.cur_start, st.cur_len)
  else (st.best_start, st.best_len)

/-- Function `bwfs_alloc_blocks` of `allocation.c`.  Returns the start of
the allocated region (or `UINT32_MAX`) together with the updated bitmap. -/
def bwfs_alloc_blocks (bm : bwfs_bitmap_t) (count : Nat) : Nat × bwfs_bitmap_t :=
  let r := find_worst_fit bm count
  if r.1 = UINT32_MAX then (UINT32_MAX, bm)
  else (r.1, (List.range count).foldl (fun b i => bwfs_bm_set b (r.1 + i) true) bm)

/-- Function `bwfs_free_blocks` of `allocation.c`. -/
def bwfs_free_blocks (bm : bwfs_bitmap_t) (start count : Nat) : bwfs_bitmap_t :=
  (List.range count).foldl (fun b i => bwfs_bm_set b (start + i) false) bm

/-- Specification predicate: `[s, s+l)` is a maximal run of zero (free)
bits of the bitmap — nonempty, inside the bitmap, all free, and bounded on
each side by an occupied bit or by an edge of the bitmap. -/
def isMaxRun (bm : bwfs_bitmap_t) (s l : Nat) : Prop :=
  0 < l ∧ s + l ≤ bm.total_blocks ∧
  (∀ j, j < l → bm.map (s + j) = false) ∧
  (s = 0 ∨ bm.map (s - 1) = true) ∧
  (s + l = bm.total_blocks ∨ bm.map (s + l) = true)

instance (bm : bwfs_bitmap_t) (s l : Nat) : Decidable (isMaxRun bm s l) := by
  unfold isMaxRun
  infer_instance

/-- Length of the maximal free run that ends at position `i` (the run of
free bits immediately below `i`). -/
def freeSuffixLen (bm : bwfs_bitmap_t) : Nat → Nat
  | 0 => 0
  | i + 1 => if bm.map i = false then freeSuffixLen bm i + 1 else 0

/-- Specification predicate: `[s, s+l)` is a maximal free run that is
closed (terminated by an occupied bit) strictly below position `i`. -/
def closedRun (bm : bwfs_bitmap_t) (i s l : Nat) : Prop :=
  0 < l ∧ s + l < i ∧
  (∀ j, j < l → bm.map (s + j) = false) ∧
  (s = 0 ∨ bm.map (s - 1) = true) ∧
  bm.map (s + l) = true

/-- Loop invariant of `find_worst_fit` after scanning positions `[0, i)`. -/
def wfInv (bm : bwfs_bitmap_t) (min_len i : Nat) (st : WFState) : Prop :=
  st.cur_len = freeSuffixLen bm i ∧
  (0 < st.cur_len → st.cur_start + st.cur_len = i) ∧
  ((st.best_start = UINT32_MAX ∧ st.best_len = 0 ∧
      ∀ s l, closedRun bm i s l → min_len ≤ l → False) ∨
    (closedRun bm i st.best_start st.best_len ∧ min_len ≤ st.best_len ∧
      (∀ s l, closedRun bm i s l → min_len ≤ l → l ≤ st.best_len) ∧
      (∀ s, closedRun bm i s st.best_len → st.best_start ≤ s)))

/-- One block file of the host directory (`block<N>.bmp` in `bmp_io.c`):
its byte length and its contents.  A missing file is modelled as a file of
length 0, which fails `verify_file_size` exactly like a missing file. -/
structure BlockFile where
  size : Nat
  data : Nat → Nat

/-- The host filesystem directory: one block file per block index. -/
def Disk : Type := Nat → BlockFile

/-- A directory with no block files yet. -/
def emptyDisk : Disk := fun _ => ⟨0, fun _ => 0⟩

/-- A block file holding `buf` at offset 0 followed by zero padding, of
the exact size `BWFS_BLOCK_SIZE_BYTES` that `verify_file_size` expects. -/
def mkBlockFile (buf : List Nat) : BlockFile :=
  ⟨BWFS_BLOCK_SIZE_BYTES, fun i => if i < buf.length then buf.getD i 0 else 0⟩

/-- Function `util_create_empty_block` of `bmp_io.c`: (re)create the block
file with `BWFS_BLOCK_SIZE_BYTES` zero bytes.  `fopen("wb")` truncates, so
an existing file is overwritten. -/
def util_create_empty_block (d : Disk) (block_id : Nat) : Disk :=
  fun b => if b = block_id then mkBlockFile [] else d b

/-- Function `util_write_block` of `bmp_io.c`: reject `len >
BWFS_BLOCK_SIZE_BYTES`, otherwise truncate the file, write `buf` and pad
with zeros up to the full block size.  `none` is the C error return -1. -/
def util_write_block (d : Disk) (block_id : Nat) (buf : List Nat) : Option Disk :=
  if BWFS_BLOCK_SIZE_BYTES < buf.length then none
  else some (fun b => if b = block_id then mkBlockFile buf else d b)

/-- Function `util_read_block` of `bmp_io.c`: reject `len >
BWFS_BLOCK_SIZE_BYTES` or a file whose size is not exactly
`BWFS_BLOCK_SIZE_BYTES`, otherwise return the first `len` bytes. -/
def util_read_block (d : Disk) (block_id : Nat) (len : Nat) : Option (List Nat) :=
  if BWFS_BLOCK_SIZE_BYTES < len then none
  else if (d block_id).size ≠ BWFS_BLOCK_SIZE_BYTES then none
  else some ((List.range len).map (d block_id).data)

/-- Little-endian byte serialization of a 32-bit field, as laid out in the
packed on-disk structs. -/
def u32le (x : Nat) : List Nat :=
  [x % 256, x / 256 % 256, x / 65536 % 256, x / 16777216 % 256]

/-- Little-endian 32-bit read at byte offset `off` of a byte list. -/
def readU32 (bytes : List Nat) (off : Nat) : Nat :=
  bytes.getD off 0 % 256 + 256 * (bytes.getD (off + 1) 0 % 256) +
    65536 * (bytes.getD (off + 2) 0 % 256) + 16777216 * (bytes.getD (off + 3) 0 % 256)

/-- The packed `bwfs_superblock_t` (the 11 reserved words stay zero and
are kept implicit). -/
structure bwfs_superblock_t where
  magic : Nat
  total_blocks : Nat
  root_inode : Nat
  block_size : Nat
  flags : Nat

/-- Byte image of a superblock as `util_write_block` receives it
(`sizeof(bwfs_superblock_t)` = 64 bytes, reserved words zeroed). -/
def serializeSuperblock (sb : bwfs_superblock_t) : List Nat :=
  u32le sb.magic ++ u32le sb.total_blocks ++ u32le sb.root_inode ++
    u32le sb.block_size ++ u32le sb.flags ++ List.replicate 44 0

/-- Function `bwfs_init_superblock` of `core/bwfs_common.c`. -/
def bwfs_init_superblock (total_blocks : Nat) : bwfs_superblock_t :=
  ⟨BWFS_MAGIC, total_blocks, 0, BWFS_BLOCK_SIZE_BITS, 0⟩

/-- Function `bwfs_write_superblock` of `core/bwfs_common.c`. -/
def bwfs_write_superblock (sb : bwfs_superblock_t) (d : Disk) : Int × Disk :=
  match util_write_block d 0 (serializeSuperblock sb) with
  | some d2 => (BWFS_OK, d2)
  | none => (BWFS_ERR_IOE, d)

/-- Function `bwfs_read_superblock` of `core/bwfs_common.c`: read 64 bytes
of block 0 and validate `magic` and `block_size` (`BWFS_ERR_FULL` on
mismatch, as in the source). -/
def bwfs_read_superblock (d : Disk) : Int × bwfs_superblock_t :=
  match util_read_block d 0 64 with
  | none => (BWFS_ERR_IOE, ⟨0, 0, 0, 0, 0⟩)
  | some bytes =>
    let sb : bwfs_superblock_t :=
      ⟨readU32 bytes 0, readU32 bytes 4, readU32 bytes 8, readU32 bytes 12, readU32 bytes 16⟩
    if sb.magic ≠ BWFS_MAGIC ∨ sb.block_size ≠ BWFS_BLOCK_SIZE_BITS then (BWFS_ERR_FULL, sb)
    else (BWFS_OK, sb)

/-- Byte `j` of the packed bitmap buffer: bit `k` of the byte is the state
of block `8*j + k` (mask `1 << (i % 8)` of `bitmap.h`). -/
def byteOfBits (f : Nat → Bool) (j : Nat) : Nat :=
  Nat.bit (f (8 * j)) (Nat.bit (f (8 * j + 1)) (Nat.bit (f (8 * j + 2))
    (Nat.bit (f (8 * j + 3)) (Nat.bit (f (8 * j + 4)) (Nat.bit (f (8 * j + 5))
      (Nat.bit (f (8 * j + 6)) (Nat.bit (f (8 * j + 7)) 0)))))))

/-- The `⌈total_blocks/8⌉` bytes of the packed bitmap buffer. -/
def bitmapBytes (bm : bwfs_bitmap_t) : List Nat :=
  (List.range ((bm.total_blocks + 7) / 8)).map (byteOfBits bm.map)

/-- Function `bwfs_write_bitmap` of `core/bitmap.c`: serialize the bitmap
into block 1. -/
def bwfs_write_bitmap (bm : bwfs_bitmap_t) (d : Disk) : Int × Disk :=
  match util_write_block d 1 (bitmapBytes bm) with
  | some d2 => (BWFS_OK, d2)
  | none => (BWFS_ERR_IOE, d)

/-- Function `bwfs_read_bitmap` of `core/bitmap.c`: the caller supplies
`total_blocks`; read `⌈total_blocks/8⌉` bytes of block 1. -/
def bwfs_read_bitmap (d : Disk) (total_blocks : Nat) : Option bwfs_bitmap_t :=
  match util_read_block d 1 ((total_blocks + 7) / 8) with
  | some bytes => some ⟨total_blocks, fun i => (bytes.getD (i / 8) 0).testBit (i % 8)⟩
  | none => none

/-- Bit `i` of the bitmap persisted in block 1 of `d` (`none` when block 1
cannot be read back). -/
def persistedBit (d : Disk) (total_blocks i : Nat) : Option Bool :=
  (bwfs_read_bitmap d total_blocks).map (fun bm => bm.map i)

/-- The packed `bwfs_inode_t` (the 14 reserved words stay zero and are
kept implicit). -/
structure bwfs_inode_t where
  ino : Nat
  size : Nat
  block_count : Nat
  flags : Nat
  blocks : Nat → Nat
  indirect : Nat

/-- Byte image of an inode as `util_write_block` receives it
(`sizeof(bwfs_inode_t)` = 116 bytes for the packed struct: 16-byte header,
10 direct pointers, indirect pointer, 56 reserved bytes). -/
def serializeInode (inode : bwfs_inode_t) : List Nat :=
  u32le inode.ino ++ u32le inode.size ++ u32le inode.block_count ++
    [inode.flags % 256] ++ [0, 0, 0] ++
    ((List.range BWFS_DIRECT_BLOCKS).map (fun i => u32le (inode.blocks i))).flatten ++
    u32le inode.indirect ++ List.replicate 56 0

/-- Inode rebuilt from the first `sizeof(bwfs_inode_t)` bytes of its
block. -/
def deserializeInode (bytes : List Nat) : bwfs_inode_t :=
  { ino := readU32 bytes 0
    size := readU32 bytes 4
    block_count := readU32 bytes 8
    flags := bytes.getD 12 0 % 256
    blocks := fun i => if i < BWFS_DIRECT_BLOCKS then readU32 bytes (16 + 4 * i) else 0
    indirect := readU32 bytes 56 }

/-- Function `bwfs_write_inode` of `core/inode.c`: persist the record to
the inode's own block. -/
def bwfs_write_inode (inode : bwfs_inode_t) (d : Disk) : Int × Disk :=
  match util_write_block d inode.ino (serializeInode inode) with
  | some d2 => (BWFS_OK, d2)
  | none => (BWFS_ERR_IOE, d)

/-- Function `bwfs_read_inode` of `core/inode.c`. -/
def bwfs_read_inode (d : Disk) (ino : Nat) : Option bwfs_inode_t :=
  match util_read_block d ino (serializeInode ⟨0, 0, 0, 0, fun _ => 0, 0⟩).length with
  | some bytes => some (deserializeInode bytes)
  | none => none

/-- Function `bwfs_create_inode` of `core/inode.c`: allocate one block,
persist a zeroed record and the bitmap; on a failed write roll back. -/
def bwfs_create_inode (bm : bwfs_bitmap_t) (is_dir : Bool) (d : Disk) :
    Nat × bwfs_bitmap_t × Disk :=
  let r := bwfs_alloc_blocks bm 1
  if r.1 = UINT32_MAX then (UINT32_MAX, bm, d)
  else
    let inode : bwfs_inode_t :=
      { ino := r.1, size := 0, block_count := 0, flags := if is_dir then 1 else 0,
        blocks := fun _ => 0, indirect := 0 }
    let w1 := bwfs_write_inode inode d
    if w1.1 ≠ BWFS_OK then
      let bm2 := bwfs_free_blocks r.2 r.1 1
      (UINT32_MAX, bm2, (bwfs_write_bitmap bm2 w1.2).2)
    else
      let w2 := bwfs_write_bitmap r.2 w1.2
      if w2.1 ≠ BWFS_OK then
        let bm2 := bwfs_free_blocks r.2 r.1 1
        (UINT32_MAX, bm2, (bwfs_write_bitmap bm2 w2.2).2)
      else (r.1, r.2, w2.2)

/-- Static helper `zero_blocks` of `core/inode.c`. -/
def zero_blocks (inode : bwfs_inode_t) (f t : Nat) : bwfs_inode_t :=
  { inode with blocks := fun i =>
      if f ≤ i ∧ i < t ∧ i < BWFS_DIRECT_BLOCKS then 0 else inode.blocks i }

/-- Assignment `inode->blocks[idx] = v`. -/
def inodeSetBlock (inode : bwfs_inode_t) (idx v : Nat) : bwfs_inode_t :=
  { inode with blocks := fun j => if j = idx then v else inode.blocks j }

/-- Expansion loop of `bwfs_inode_resize`: allocate the missing blocks one
by one (`fuel` counts the remaining iterations, `i` the completed ones);
on shortage report the iteration index and the mutated state, like the C
rollback path sees them. -/
def resizeLoop (cur_blocks : Nat) :
    Nat → bwfs_bitmap_t → bwfs_inode_t → Nat →
      Except (Nat × bwfs_bitmap_t × bwfs_inode_t) (bwfs_bitmap_t × bwfs_inode_t)
  | 0, bm, inode, _ => .ok (bm, inode)
  | fuel + 1, bm, inode, i =>
    let r := bwfs_alloc_blocks bm 1
    if r.1 = UINT32_MAX then .error (i, bm, inode)
    else resizeLoop cur_blocks fuel r.2 (inodeSetBlock inode (cur_blocks + i) r.1) (i + 1)

/-- Final persistence of `bwfs_inode_resize`: bitmap first, then the
inode, short-circuiting on failure. -/
def resizeFinish (bm : bwfs_bitmap_t) (inode : bwfs_inode_t) (d : Disk) :
    Int × bwfs_bitmap_t × bwfs_inode_t × Disk :=
  let w1 := bwfs_write_bitmap bm d
  if w1.1 ≠ BWFS_OK then (BWFS_ERR_IOE, bm, inode, w1.2)
  else
    let w2 := bwfs_write_inode inode w1.2
    if w2.1 ≠ BWFS_OK then (BWFS_ERR_IOE, bm, inode, w2.2)
    else (BWFS_OK, bm, inode, w2.2)

/-- Function `bwfs_inode_resize` of `core/inode.c`. -/
def bwfs_inode_resize (bm : bwfs_bitmap_t) (inode : bwfs_inode_t) (new_size : Nat)
    (d : Disk) : Int × bwfs_bitmap_t × bwfs_inode_t × Disk :=
  let cur_blocks := inode.block_count
  let req_blocks := (new_size + BWFS_BLOCK_SIZE_BYTES - 1) / BWFS_BLOCK_SIZE_BYTES
  if BWFS_DIRECT_BLOCKS < req_blocks then (BWFS_ERR_FULL, bm, inode, d)
  else if cur_blocks < req_blocks then
    match resizeLoop cur_blocks (req_blocks - cur_blocks) bm inode 0 with
    | .error e =>
      let bm2 := bwfs_free_blocks e.2.1 (e.2.2.blocks cur_blocks) e.1
      (BWFS_ERR_FULL, bm2, e.2.2, (bwfs_write_bitmap bm2 d).2)
    | .ok r =>
      resizeFinish r.1 { r.2 with block_count := req_blocks, size := new_size } d
  else if req_blocks < cur_blocks then
    let bm2 := (List.range (cur_blocks - req_blocks)).foldl
      (fun b k => bwfs_free_blocks b (inode.blocks (req_blocks + k)) 1) bm
    resizeFinish bm2
      { zero_blocks inode req_blocks cur_blocks with block_count := req_blocks, size := new_size }
      d
  else
    resizeFinish bm { inode with size := new_size } d

/-- One fixed-size directory record `bwfs_dir_entry_t`.  The 256-byte name
array always holds a NUL-terminated string produced by `strncpy(..,
BWFS_NAME_MAX)` plus a forced NUL; `name` models the C-string contents
(the bytes before the first NUL, hence at most 255 bytes). -/
structure bwfs_dir_entry_t where
  ino : Nat
  name : List Nat

/-- Number of directory records per block:
`BWFS_BLOCK_SIZE_BYTES / sizeof(bwfs_dir_entry_t)` = 125000 / 260 = 480
(`max_entries_per_block` in `dir.c`). -/
def maxEntriesPerBlock : Nat := BWFS_BLOCK_SIZE_BYTES / 260

/-- Comparison `strncmp(a, b, BWFS_NAME_MAX) == 0` on two C strings given
by their contents: equality of the first 255 bytes. -/
def nameMatches (a b : List Nat) : Bool :=
  a.take BWFS_NAME_MAX == b.take BWFS_NAME_MAX

/-- Effect of `strncpy(dst, name, BWFS_NAME_MAX)` followed by
`dst[BWFS_NAME_MAX] = 0` on the stored C string. -/
def strncpyName (name : List Nat) : List Nat :=
  name.take BWFS_NAME_MAX

/-- An in-memory single-block directory: the inode's `size` field and the
record array `load_entries` reads from `blocks[0]` (and `store_entries`
writes back).  The claims about `dir.c` are settled at this level; the
block-file round-trip itself is the subject of the `util_write_block` /
`util_read_block` theorems. -/
structure DirState where
  size : Nat
  entries : List bwfs_dir_entry_t

/-- Scan loop of `bwfs_dir_add` (step 3 in `dir.c`): record the first slot
with `ino == 0`, and fail (`Except.error`) as soon as an occupied slot's
name matches.  `i` is the index of the head of the remaining list,
`free_idx` the first free slot seen so far. -/
def scanEntries (name : List Nat) :
    List bwfs_dir_entry_t → Nat → Option Nat → Except Unit (Option Nat)
  | [], _, free_idx => .ok free_idx
  | e :: rest, i, free_idx =>
    let free_idx2 := if e.ino = 0 ∧ free_idx = none then some i else free_idx
    if e.ino ≠ 0 ∧ nameMatches e.name name then .error ()
    else scanEntries name rest (i + 1) free_idx2

/-- Function `bwfs_dir_add` of `dir.c` on a loaded single-block directory
(`block_count > 0`): reject a duplicate name or a full block with
`BWFS_ERR_FULL`, otherwise fill the first free slot and grow `size` by one
record. -/
def bwfs_dir_add (st : DirState) (name : List Nat) (child_ino : Nat) : Int × DirState :=
  match scanEntries name st.entries 0 none with
  | .error _ => (BWFS_ERR_FULL, st)
  | .ok none => (BWFS_ERR_FULL, st)
  | .ok (some i) =>
    (BWFS_OK, ⟨st.size + 260, st.entries.set i ⟨child_ino, strncpyName name⟩⟩)

/-- Function `bwfs_dir_lookup` of `dir.c`: first occupied slot whose name
matches, else `UINT32_MAX`. -/
def bwfs_dir_lookup (st : DirState) (name : List Nat) : Nat :=
  match st.entries.find? (fun e => e.ino != 0 && nameMatches e.name name) with
  | some e => e.ino
  | none => UINT32_MAX

/-- Function `bwfs_dir_remove` of `dir.c`: free the first occupied slot
whose name matches (`ino = 0`, first name byte NUL, `size` shrunk), else
report `DIR_NOT_FOUND`. -/
def bwfs_dir_remove (st : DirState) (name : List Nat) : Int × DirState :=
  match st.entries.findIdx? (fun e => e.ino != 0 && nameMatches e.name name) with
  | some i => (BWFS_OK, ⟨st.size - 260, st.entries.set i ⟨0, []⟩⟩)
  | none => (DIR_NOT_FOUND, st)

/-- Predicate: some occupied slot's name matches `name` (what makes
`bwfs_dir_add` reject). -/
def hasDup (es : List bwfs_dir_entry_t) (name : List Nat) : Prop :=
  ∃ e ∈ es, e.ino ≠ 0 ∧ nameMatches e.name name = true

/-- Predicate: some slot is free. -/
def hasFree (es : List bwfs_dir_entry_t) : Prop :=
  ∃ e ∈ es, e.ino = 0

instance (es : List bwfs_dir_entry_t) (name : List Nat) : Decidable (hasDup es name) := by
  unfold hasDup
  infer_instance

instance (es : List bwfs_dir_entry_t) : Decidable (hasFree es) := by
  unfold hasFree
  infer_instance

/-- Bitmap effect of `op_unlink` in `src/fuse/bwfs.c`: free one block at
the inode's own index, then `file.block_count` consecutive blocks starting
at `file.blocks[0]`. -/
def op_unlink_free (bm : bwfs_bitmap_t) (ino : Nat) (file : bwfs_inode_t) : bwfs_bitmap_t :=
  bwfs_free_blocks (bwfs_free_blocks bm ino 1) (file.blocks 0) file.block_count

/-- Formatter `main` of `src/cli/mkfs_bwfs.c` (the getopt `-b` variant,
`src/unnamed/part_003`) run on `total_blocks` blocks: initialize the
superblock and bitmap, reserve blocks 0 and 1, create the root inode,
persist superblock and bitmap, then `create_all_blocks` over every index
in `[0, total_blocks)`.  `none` models the `EXIT_FAILURE` paths; the
result is the root inode number and the final directory contents. -/
def mkfs_part003 (total_blocks : Nat) (d0 : Disk) : Option (Nat × Disk) :=
  let bm0 : bwfs_bitmap_t := ⟨total_blocks, fun _ => false⟩
  let bm1 := bwfs_bm_set (bwfs_bm_set bm0 0 true) 1 true
  let cr := bwfs_create_inode bm1 true d0
  if cr.1 = UINT32_MAX then none
  else
    let sb := { bwfs_init_superblock total_blocks with root_inode := cr.1 }
    let w1 := bwfs_write_superblock sb cr.2.2
    if w1.1 ≠ BWFS_OK then none
    else
      let w2 := bwfs_write_bitmap cr.2.1 w1.2
      if w2.1 ≠ BWFS_OK then none
      else some (cr.1, (List.range total_blocks).foldl util_create_empty_block w2.2)

/-- State of the consistency checker `fsck_bwfs.c` (`fsck_context_t` plus
the host directory it mutates). -/
structure FsckCtx where
  auto_repair : Bool
  errors_found : Nat
  errors_fixed : Nat
  warnings : Nat
  sb : bwfs_superblock_t
  bitmap : bwfs_bitmap_t
  inode_used : Nat → Bool
  block_used : Nat → Bool
  disk : Disk

/-- Logging call `fsck_log(ctx, FSCK_ERROR, ...)`. -/
def fsckLogError (ctx : FsckCtx) : FsckCtx :=
  { ctx with errors_found := ctx.errors_found + 1 }

/-- Logging call `fsck_log(ctx, FSCK_WARNING, ...)`. -/
def fsckLogWarn (ctx : FsckCtx) : FsckCtx :=
  { ctx with warnings := ctx.warnings + 1 }

/-- Function `check_superblock` of `fsck_bwfs.c`. -/
def check_superblock (ctx : FsckCtx) : FsckCtx × Bool :=
  let r := bwfs_read_superblock ctx.disk
  if r.1 ≠ BWFS_OK then (fsckLogError ctx, false)
  else
    let ctx1 := { ctx with sb := r.2 }
    if ctx1.sb.magic ≠ BWFS_MAGIC then (fsckLogError ctx1, false)
    else if ctx1.sb.block_size ≠ BWFS_BLOCK_SIZE_BITS then (fsckLogError ctx1, false)
    else if ctx1.sb.total_blocks < 3 then (fsckLogError ctx1, false)
    else if ctx1.sb.total_blocks ≤ ctx1.sb.root_inode then (fsckLogError ctx1, false)
    else (ctx1, true)

/-- One critical-block check of `check_bitmap`: if the bit is clear, log
an error and (under `-y`) repair it in the in-memory bitmap. -/
def checkCriticalBit (ctx : FsckCtx) (blk : Nat) : FsckCtx :=
  if bwfs_bm_test ctx.bitmap blk then ctx
  else
    let c := fsckLogError ctx
    if c.auto_repair then
      { c with bitmap := bwfs_bm_set c.bitmap blk true, errors_fixed := c.errors_fixed + 1 }
    else c

/-- Function `check_bitmap` of `fsck_bwfs.c`: load the bitmap, check the
superblock, bitmap and root-inode bits, and seed `block_used` with those
three blocks. -/
def check_bitmap (ctx : FsckCtx) : FsckCtx × Bool :=
  match bwfs_read_bitmap ctx.disk ctx.sb.total_blocks with
  | none => (fsckLogError ctx, false)
  | some bm =>
    let c0 := { ctx with bitmap := bm }
    let c1 := checkCriticalBit c0 0
    let c2 := checkCriticalBit c1 1
    let c3 := checkCriticalBit c2 c2.sb.root_inode
    ({ c3 with
        block_used := fun b => b == 0 || b == 1 || b == c3.sb.root_inode }, true)

/-- Loop of `check_single_inode` over the leading nonzero entries of
`blocks[]`: count them, abort (`Except.error`, keeping the marks made so
far) when one is out of range, and mark each in `block_used`. -/
def inodeBlocksLoop (inode : bwfs_inode_t) (total : Nat) :
    Nat → Nat → (Nat → Bool) → Except (Nat → Bool) (Nat × (Nat → Bool))
  | 0, i, bu => .ok (i, bu)
  | fuel + 1, i, bu =>
    if inode.blocks i = 0 then .ok (i, bu)
    else if total ≤ inode.blocks i then .error bu
    else inodeBlocksLoop inode total fuel (i + 1)
      (fun x => if x = inode.blocks i then true else bu x)

/-- Repair step shared by `check_single_inode`: log an error and, under
`-y`, persist the corrected inode and count the fix. -/
def repairInode (ctx : FsckCtx) (inode : bwfs_inode_t) (fallback : bwfs_inode_t) :
    FsckCtx × bwfs_inode_t :=
  let c := fsckLogError ctx
  if c.auto_repair then
    let w := bwfs_write_inode inode c.disk
    (if w.1 = BWFS_OK then { c with disk := w.2, errors_fixed := c.errors_fixed + 1 }
      else { c with disk := w.2 }, inode)
  else (c, fallback)

/-- Function `check_single_inode` of `fsck_bwfs.c`. -/
def check_single_inode (ctx : FsckCtx) (ino : Nat) : FsckCtx × Bool :=
  match bwfs_read_inode ctx.disk ino with
  | none => (fsckLogError ctx, false)
  | some inode0 =>
    let p1 :=
      if inode0.ino ≠ ino then repairInode ctx { inode0 with ino := ino } inode0
      else (ctx, inode0)
    match inodeBlocksLoop p1.2 p1.1.sb.total_blocks BWFS_DIRECT_BLOCKS 0 p1.1.block_used with
    | .error bu => (fsckLogError { p1.1 with block_used := bu }, false)
    | .ok rb =>
      let c2 := { p1.1 with block_used := rb.2 }
      let p2 :=
        if p1.2.block_count ≠ rb.1 then repairInode c2 { p1.2 with block_count := rb.1 } p1.2
        else (c2, p1.2)
      if p2.2.flags % 2 = 0 then
        let max_size := p2.2.block_count * BWFS_BLOCK_SIZE_BYTES
        if max_size < p2.2.size then
          ((repairInode p2.1 { p2.2 with size := max_size } p2.2).1, true)
        else (p2.1, true)
      else (p2.1, true)

/-- Directory record parsed from a raw directory block at slot `i`
(offset `260 * i`): the `u32` inode then the NUL-terminated name. -/
def readCStringAux (bytes : List Nat) : Nat → Nat → List Nat
  | 0, _ => []
  | fuel + 1, off =>
    if bytes.getD off 0 % 256 = 0 then []
    else bytes.getD off 0 % 256 :: readCStringAux bytes fuel (off + 1)

/-- Directory slot `i` of a raw directory block. -/
def parseDirEntry (bytes : List Nat) (i : Nat) : bwfs_dir_entry_t :=
  ⟨readU32 bytes (260 * i), readCStringAux bytes BWFS_NAME_MAX (260 * i + 4)⟩

/-- Function `check_directory_recursive` of `fsck_bwfs.c`.  The `fuel`
argument is `101 - depth`, so `fuel = 0` is the `depth > 100` loop guard.
Returns the updated state and whether the check succeeded (`0` in C). -/
def fsckWalk : Nat → FsckCtx → Nat → FsckCtx × Bool
  | 0, ctx, _ => (fsckLogError ctx, false)
  | fuel + 1, ctx, dir_ino =>
    match bwfs_read_inode ctx.disk dir_ino with
    | none => (fsckLogError ctx, false)
    | some dirInode =>
      if dirInode.flags % 2 = 0 then (fsckLogError ctx, false)
      else
        let c1 := { ctx with
          inode_used := fun j => if j = dir_ino then true else ctx.inode_used j }
        if dirInode.block_count = 0 then (c1, true)
        else
          match util_read_block c1.disk (dirInode.blocks 0) BWFS_BLOCK_SIZE_BYTES with
          | none => (fsckLogError c1, false)
          | some bytes =>
            let entries := (List.range maxEntriesPerBlock).map (parseDirEntry bytes)
            let step := fun (c : FsckCtx) (e : bwfs_dir_entry_t) =>
              if e.ino = 0 then c
              else if c.sb.total_blocks ≤ e.ino then fsckLogError c
              else
                let r := check_single_inode c e.ino
                if r.2 = false then r.1
                else
                  match bwfs_read_inode r.1.disk e.ino with
                  | none => r.1
                  | some child =>
                    let c2 := if child.flags % 2 = 1 then (fsckWalk fuel r.1 e.ino).1 else r.1
                    { c2 with
                      inode_used := fun j => if j = e.ino then true else c2.inode_used j }
            let c2 := entries.foldl step c1
            let entry_count := (entries.filter (fun e => e.ino != 0)).length
            let c3 := if dirInode.size ≠ entry_count * 260 then fsckLogWarn c2 else c2
            (c3, true)

/-- One iteration of the reconciliation loop of `check_bitmap_consistency`
(the `Bool` component is `bitmap_dirty`). -/
def cbcStep (c : FsckCtx × Bool) (i : Nat) : FsckCtx × Bool :=
  let says_used := bwfs_bm_test c.1.bitmap i
  let really_used := c.1.block_used i
  if says_used = true ∧ really_used = false then
    let c1 := fsckLogWarn c.1
    if c1.auto_repair then
      ({ c1 with
          bitmap := bwfs_bm_set c1.bitmap i false
          errors_fixed := c1.errors_fixed + 1 }, true)
    else (c1, c.2)
  else if says_used = false ∧ really_used = true then
    let c1 := fsckLogError c.1
    if c1.auto_repair then
      ({ c1 with
          bitmap := bwfs_bm_set c1.bitmap i true
          errors_fixed := c1.errors_fixed + 1 }, true)
    else (c1, c.2)
  else c

/-- Function `check_bitmap_consistency` of `fsck_bwfs.c`: reconcile the
loaded bitmap with `block_used` and persist the bitmap when repaired. -/
def check_bitmap_consistency (ctx : FsckCtx) : FsckCtx × Bool :=
  let r := (List.range ctx.sb.total_blocks).foldl cbcStep (ctx, false)
  if r.2 then
    let w := bwfs_write_bitmap r.1.bitmap r.1.disk
    if w.1 ≠ BWFS_OK then (fsckLogError { r.1 with disk := w.2 }, false)
    else ({ r.1 with disk := w.2 }, true)
  else (r.1, true)

/-- One iteration of the orphan scan in `run_fsck` (indexes `2 ≤ i <
total_blocks`). -/
def orphanStep (ctx : FsckCtx) (i : Nat) : FsckCtx :=
  if i < 2 then ctx
  else if bwfs_bm_test ctx.bitmap i = true ∧ ctx.inode_used i = false then
    match bwfs_read_inode ctx.disk i with
    | some t => if t.ino = i then fsckLogWarn ctx else ctx
    | none => ctx
  else ctx

/-- Function `run_fsck` of `fsck_bwfs.c`. -/
def run_fsck (ctx0 : FsckCtx) : FsckCtx × Bool :=
  let r1 := check_superblock ctx0
  if r1.2 = false then (r1.1, false)
  else
    let r2 := check_bitmap r1.1
    if r2.2 = false then (r2.1, false)
    else
      let c := { r2.1 with inode_used := fun _ => false }
      let r3 := fsckWalk 101 c c.sb.root_inode
      if r3.2 = false then (r3.1, false)
      else
        let r4 := check_bitmap_consistency r3.1
        if r4.2 = false then (r4.1, false)
        else ((List.range r4.1.sb.total_blocks).foldl orphanStep r4.1, true)

/-- Function `main` of `fsck_bwfs.c`: run the checks and classify the exit
code (0 clean, 1 repaired, 4 dirty, 8 operational error). -/
def fsck_main (d : Disk) (auto_repair : Bool) : Nat × FsckCtx :=
  let ctx0 : FsckCtx :=
    ⟨auto_repair, 0, 0, 0, ⟨0, 0, 0, 0, 0⟩, ⟨0, fun _ => false⟩,
      fun _ => false, fun _ => false, d⟩
  let r := run_fsck ctx0
  let code :=
    if r.2 = false then 8
    else if r.1.errors_found = 0 then 0
    else if r.1.errors_fixed = r.1.errors_found then 1
    else 4
  (code, r.1)

/-- Witness bitmap for the allocator claims: 8 blocks, blocks 0 and 1
occupied, one free run `[2, 8)`. -/
def bmAllocW : bwfs_bitmap_t := ⟨8, fun i => decide (i < 2)⟩

/-- Witness bitmap with every block occupied. -/
def bmFullW : bwfs_bitmap_t := ⟨4, fun _ => true⟩

/-- Failing input for the resize rollback: 5 blocks of which 0, 2 and 4
are occupied, so the two free blocks 1 and 3 are not contiguous. -/
def bmResizeBug : bwfs_bitmap_t := ⟨5, fun i => i == 0 || i == 2 || i == 4⟩

/-- An empty file inode stored in block 2. -/
def inodeEmpty2 : bwfs_inode_t := ⟨2, 0, 0, 0, fun _ => 0, 0⟩

/-- Failing input for `op_unlink`: inode block 2; data blocks listed as
`blocks[0] = 5`, `blocks[1] = 3` (non-contiguous); block 6 belongs to
another file. -/
def bmUnlinkBug : bwfs_bitmap_t := ⟨8, fun i => i == 2 || i == 3 || i == 5 || i == 6⟩

/-- The file inode being unlinked in the `op_unlink` failing input. -/
def fileUnlinkBug : bwfs_inode_t :=
  ⟨2, 0, 2, 0, fun i => if i = 0 then 5 else if i = 1 then 3 else 0, 0⟩

/-- A freshly zeroed single-block directory (every slot free). -/
def freeDirState : DirState := ⟨0, List.replicate maxEntriesPerBlock ⟨0, []⟩⟩

/-- A completely full single-block directory: all 480 slots occupied with
pairwise distinct two-byte names (none of them equal to `[97]`). -/
def fullDirState : DirState :=
  ⟨maxEntriesPerBlock * 260,
    (List.range maxEntriesPerBlock).map (fun k => ⟨1, [k / 200 + 1, k % 200 + 1]⟩)⟩

/-- Witness bitmap for the resize frame claim: 16 blocks with 0, 1, 2
occupied. -/
def bmResizeW : bwfs_bitmap_t := ⟨16, fun i => decide (i < 3)⟩

/-- Witness inode (an empty directory in block 2) for the resize frame
claim. -/
def inodeResizeW : bwfs_inode_t := ⟨2, 0, 0, 1, fun _ => 0, 0⟩

/-- Index of the first free slot (`ino == 0`) of a record list, counting
from `i`: the value the scan loop of `bwfs_dir_add` leaves in `free_idx`
when no duplicate aborts it. -/
def firstFreeIdx : List bwfs_dir_entry_t → Nat → Option Nat
  | [], _ => none
  | e :: rest, i => if e.ino = 0 then some i else firstFreeIdx rest (i + 1)

set_option maxRecDepth 8000

/-! Helper lemmas about the scan loop of `bwfs_dir_add`. -/

theorem scanEntries_error_iff (name : List Nat) (es : List bwfs_dir_entry_t) (i : Nat)
    (acc : Option Nat) :
    scanEntries name es i acc = .error () ↔ hasDup es name := by
  induction es generalizing i acc with
  | nil => simp [scanEntries, hasDup]
  | cons e rest ih =>
    simp only [scanEntries]
    by_cases h : e.ino ≠ 0 ∧ nameMatches e.name name = true
    · simp only [if_pos h]
      simp only [true_iff]
      exact ⟨e, List.mem_cons_self e rest, h⟩
    · rw [if_neg h, ih]
      simp only [hasDup, List.mem_cons]
      constructor
      · rintro ⟨x, hx, hp⟩
        exact ⟨x, Or.inr hx, hp⟩
      · rintro ⟨x, hx, hp⟩
        rcases hx with rfl | hx
        · exact absurd hp h
        · exact ⟨x, hx, hp⟩

theorem scanEntries_some (name : List Nat) (es : List bwfs_dir_entry_t) (j : Nat)
    (h : ¬ hasDup es name) (i : Nat) :
    scanEntries name es i (some j) = .ok (some j) := by
  induction es generalizing i with
  | nil => rfl
  | cons e rest ih =>
    have he : ¬ (e.ino ≠ 0 ∧ nameMatches e.name name = true) := fun hc =>
      h ⟨e, List.mem_cons_self e rest, hc⟩
    have hrest : ¬ hasDup rest name := fun hd => by
      obtain ⟨x, hx, hp⟩ := hd
      exact h ⟨x, List.mem_cons_of_mem e hx, hp⟩
    simp only [scanEntries]
    rw [if_neg he]
    have hacc : (if e.ino = 0 ∧ (some j : Option Nat) = none then some i else some j) = some j := by
      simp
    rw [hacc]
    exact ih hrest (i + 1)

theorem scanEntries_none (name : List Nat) (es : List bwfs_dir_entry_t)
    (h : ¬ hasDup es name) (i : Nat) :
    scanEntries name es i none = .ok (firstFreeIdx es i) := by
  induction es generalizing i with
  | nil => rfl
  | cons e rest ih =>
    have he : ¬ (e.ino ≠ 0 ∧ nameMatches e.name name = true) := fun hc =>
      h ⟨e, List.mem_cons_self e rest, hc⟩
    have hrest : ¬ hasDup rest name := fun hd => by
      obtain ⟨x, hx, hp⟩ := hd
      exact h ⟨x, List.mem_cons_of_mem e hx, hp⟩
    simp only [scanEntries, firstFreeIdx]
    rw [if_neg he]
    by_cases hz : e.ino = 0
    · simp only [hz, if_pos trivial, and_true, if_true, true_and, if_pos rfl]
      exact scanEntries_some name rest i hrest (i + 1)
    · simp only [hz, if_neg hz, false_and, and_false, if_false]
      exact ih hrest (i + 1)

theorem firstFreeIdx_isSome_iff (es : List bwfs_dir_entry_t) (i : Nat) :
    (firstFreeIdx es i).isSome = true ↔ hasFree es := by
  induction es generalizing i with
  | nil => simp [firstFreeIdx, hasFree]
  | cons e rest ih =>
    simp only [firstFreeIdx, hasFree]
    by_cases hz : e.ino = 0
    · simp [hz]
    · rw [if_neg hz, ih]
      simp only [hasFree, List.mem_cons]
      constructor
      · rintro ⟨x, hx, hp⟩
        exact ⟨x, Or.inr hx, hp⟩
      · rintro ⟨x, hx, hp⟩
        rcases hx with rfl | hx
        · exact absurd hp hz
        · exact ⟨x, hx, hp⟩

theorem strncpy_matches (name : List Nat) : nameMatches (strncpyName name) name = true := by
  simp [nameMatches, strncpyName, List.take_take]

theorem firstFreeIdx_shift (es : List bwfs_dir_entry_t) (i : Nat) :
    firstFreeIdx es i = (firstFreeIdx es 0).map (fun k => k + i) := by
  induction es generalizing i with
  | nil => rfl
  | cons e rest ih =>
    simp only [firstFreeIdx]
    by_cases hz : e.ino = 0
    · simp [hz]
    · rw [if_neg hz, if_neg hz, ih (i + 1), ih 1]
      cases firstFreeIdx rest 0 with
      | none => rfl
      | some k =>
        simp only [Option.map_some']
        congr 1
        omega

theorem find_after_add (es : List bwfs_dir_entry_t) (name : List Nat) (child : Nat)
    (hchild : child ≠ 0) (idx : Nat) (hidx : firstFreeIdx es 0 = some idx)
    (hnodup : ∀ e ∈ es, e.ino ≠ 0 → nameMatches e.name name = false) :
    (es.set idx ⟨child, strncpyName name⟩).find?
      (fun e => e.ino != 0 && nameMatches e.name name) = some ⟨child, strncpyName name⟩ := by
  induction es generalizing idx with
  | nil => simp [firstFreeIdx] at hidx
  | cons e rest ih =>
    by_cases hz : e.ino = 0
    · have h0 : idx = 0 := by
        simp [firstFreeIdx, hz] at hidx
        omega
      subst h0
      simp only [List.set_cons_zero]
      rw [List.find?_cons_of_pos]
      simp only [strncpy_matches, Bool.and_true]
      simpa using hchild
    · have hshift : firstFreeIdx rest 1 = some idx := by
        simpa [firstFreeIdx, hz] using hidx
      rw [firstFreeIdx_shift rest 1] at hshift
      rcases hk : firstFreeIdx rest 0 with _ | k
      · rw [hk] at hshift
        simp at hshift
      · rw [hk] at hshift
        simp only [Option.map_some'] at hshift
        have hidx1 : idx = k + 1 := by
          have h2 := Option.some.inj hshift
          omega
        subst hidx1
        simp only [List.set_cons_succ]
        rw [List.find?_cons_of_neg]
        · exact ih k hk (fun x hx => hnodup x (List.mem_cons_of_mem e hx))
        · have := hnodup e (List.mem_cons_self e rest) hz
          simp [this]

theorem find_after_add_zero (es : List bwfs_dir_entry_t) (name nm : List Nat) (idx : Nat)
    (hnodup : ∀ e ∈ es, e.ino ≠ 0 → nameMatches e.name name = false) :
    (es.set idx ⟨0, nm⟩).find? (fun e => e.ino != 0 && nameMatches e.name name) = none := by
  rw [List.find?_eq_none]
  intro x hx
  rcases List.mem_or_eq_of_mem_set hx with hmem | rfl
  · by_cases hz : x.ino = 0
    · simp [hz]
    · simp [hz, hnodup x hmem hz]
  · simp

theorem findIdx_after_add_zero (es : List bwfs_dir_entry_t) (name nm : List Nat) (idx : Nat)
    (hnodup : ∀ e ∈ es, e.ino ≠ 0 → nameMatches e.name name = false) :
    (es.set idx ⟨0, nm⟩).findIdx? (fun e => e.ino != 0 && nameMatches e.name name) = none := by
  rw [List.findIdx?_eq_none_iff]
  intro x hx
  rcases List.mem_or_eq_of_mem_set hx with hmem | rfl
  · by_cases hz : x.ino = 0
    · simp [hz]
    · simp [hz, hnodup x hmem hz]
  · simp

/-! Helper lemmas for the block-codec round trip. -/

theorem range_map_pad (buf : List Nat) (len : Nat) (h : buf.length ≤ len) :
    (List.range len).map (fun i => if i < buf.length then buf.getD i 0 else 0) =
      buf ++ List.replicate (len - buf.length) 0 := by
  apply List.ext_getElem
  · simp
    omega
  · intro i h1 h2
    simp only [List.getElem_map, List.getElem_range]
    by_cases hi : i < buf.length
    · rw [if_pos hi, List.getElem_append_left hi, List.getD_eq_getElem buf 0 hi]
    · rw [if_neg hi, List.getElem_append_right (Nat.le_of_not_lt hi)]
      simp

/-! Helper lemmas for the disk frame property of `bwfs_inode_resize`. -/

theorem write_bitmap_frame (bm : bwfs_bitmap_t) (d : Disk) (b : Nat) (hb : b ≠ 1) :
    (bwfs_write_bitmap bm d).2 b = d b := by
  simp only [bwfs_write_bitmap, util_write_block]
  by_cases hlen : BWFS_BLOCK_SIZE_BYTES < (bitmapBytes bm).length
  · rw [if_pos hlen]
  · rw [if_neg hlen]
    simp [hb]

theorem write_inode_frame (inode : bwfs_inode_t) (d : Disk) (b : Nat) (hb : b ≠ inode.ino) :
    (bwfs_write_inode inode d).2 b = d b := by
  simp only [bwfs_write_inode, util_write_block]
  by_cases hlen : BWFS_BLOCK_SIZE_BYTES < (serializeInode inode).length
  · rw [if_pos hlen]
  · rw [if_neg hlen]
    simp [hb]

theorem resizeFinish_frame (bm : bwfs_bitmap_t) (inode : bwfs_inode_t) (d : Disk) (b : Nat)
    (hb1 : b ≠ 1) (hb2 : b ≠ inode.ino) :
    (resizeFinish bm inode d).2.2.2 b = d b := by
  simp only [resizeFinish]
  by_cases h1 : (bwfs_write_bitmap bm d).1 ≠ BWFS_OK
  · rw [if_pos h1]
    exact write_bitmap_frame bm d b hb1
  · rw [if_neg h1]
    by_cases h2 : (bwfs_write_inode inode (bwfs_write_bitmap bm d).2).1 ≠ BWFS_OK
    · rw [if_pos h2]
      rw [write_inode_frame inode _ b hb2, write_bitmap_frame bm d b hb1]
    · rw [if_neg h2]
      rw [write_inode_frame inode _ b hb2, write_bitmap_frame bm d b hb1]

theorem resizeLoop_error_ino (cur : Nat) :
    ∀ fuel bm inode i e, resizeLoop cur fuel bm inode i = .error e → e.2.2.ino = inode.ino := by
  intro fuel
  induction fuel with
  | zero =>
    intro bm inode i e h
    exact absurd h (by simp [resizeLoop])
  | succ k ih =>
    intro bm inode i e h
    simp only [resizeLoop] at h
    by_cases hf : (bwfs_alloc_blocks bm 1).1 = UINT32_MAX
    · rw [if_pos hf] at h
      cases h
      rfl
    · rw [if_neg hf] at h
      have := ih _ _ _ _ h
      simpa [inodeSetBlock] using this

theorem resizeLoop_ok_ino (cur : Nat) :
    ∀ fuel bm inode i r, resizeLoop cur fuel bm inode i = .ok r → r.2.ino = inode.ino := by
  intro fuel
  induction fuel with
  | zero =>
    intro bm inode i r h
    simp only [resizeLoop] at h
    cases h
    rfl
  | succ k ih =>
    intro bm inode i r h
    simp only [resizeLoop] at h
    by_cases hf : (bwfs_alloc_blocks bm 1).1 = UINT32_MAX
    · rw [if_pos hf] at h
      cases h
    · rw [if_neg hf] at h
      have := ih _ _ _ _ h
      simpa [inodeSetBlock] using this
/-! Helper lemmas for the worst-fit allocator. -/

theorem fsl_le (bm : bwfs_bitmap_t) (i : Nat) : freeSuffixLen bm i ≤ i := by
  induction i with
  | zero => simp [freeSuffixLen]
  | succ k ih =>
    simp only [freeSuffixLen]
    by_cases h : bm.map k = false
    · rw [if_pos h]
      omega
    · rw [if_neg h]
      omega

theorem fsl_free (bm : bwfs_bitmap_t) (i : Nat) :
    ∀ j, i - freeSuffixLen bm i ≤ j → j < i → bm.map j = false := by
  induction i with
  | zero => omega
  | succ k ih =>
    intro j h1 h2
    simp only [freeSuffixLen] at h1
    by_cases h : bm.map k = false
    · rw [if_pos h] at h1
      by_cases hj : j = k
      · rw [hj]
        exact h
      · have hk := fsl_le bm k
        exact ih j (by omega) (by omega)
    · rw [if_neg h] at h1
      omega

theorem fsl_boundary (bm : bwfs_bitmap_t) (i : Nat) (h : freeSuffixLen bm i < i) :
    bm.map (i - freeSuffixLen bm i - 1) = true := by
  induction i with
  | zero => omega
  | succ k ih =>
    simp only [freeSuffixLen] at h ⊢
    by_cases hb : bm.map k = false
    · rw [if_pos hb] at h ⊢
      have hk : freeSuffixLen bm k < k := by omega
      have := ih hk
      have harith : k + 1 - (freeSuffixLen bm k + 1) - 1 = k - freeSuffixLen bm k - 1 := by omega
      rw [harith]
      exact this
    · rw [if_neg hb] at h ⊢
      simp only [Nat.sub_zero]
      have : bm.map k = true := by
        cases hmk : bm.map k
        · exact absurd hmk hb
        · rfl
      simpa using this

theorem fsl_ge (bm : bwfs_bitmap_t) (i : Nat) :
    ∀ s, s ≤ i → (∀ j, s ≤ j → j < i → bm.map j = false) → i - s ≤ freeSuffixLen bm i := by
  induction i with
  | zero => omega
  | succ k ih =>
    intro s hs hfree
    by_cases hsk : s = k + 1
    · omega
    · have hs2 : s ≤ k := by omega
      have hk : bm.map k = false := hfree k hs2 (by omega)
      simp only [freeSuffixLen, if_pos hk]
      have := ih s hs2 (fun j h1 h2 => hfree j h1 (by omega))
      omega

theorem fsl_eq (bm : bwfs_bitmap_t) (i s : Nat) (hs : s ≤ i)
    (hfree : ∀ j, s ≤ j → j < i → bm.map j = false)
    (hbound : s = 0 ∨ bm.map (s - 1) = true) :
    freeSuffixLen bm i = i - s := by
  have hge := fsl_ge bm i s hs hfree
  have hle := fsl_le bm i
  rcases Nat.lt_or_ge (i - s) (freeSuffixLen bm i) with hlt | hge2
  · exfalso
    rcases hbound with rfl | hb
    · omega
    · have hs0 : 0 < s := by
        rcases Nat.eq_zero_or_pos s with rfl | h0
        · omega
        · exact h0
      have h1 : i - freeSuffixLen bm i ≤ s - 1 := by omega
      have h2 : s - 1 < i := by omega
      have := fsl_free bm i (s - 1) h1 h2
      rw [this] at hb
      cases hb
  · omega

theorem closedRun_mono (bm : bwfs_bitmap_t) (i i' s l : Nat) (h : closedRun bm i s l)
    (hii : i ≤ i') : closedRun bm i' s l := by
  obtain ⟨h1, h2, h3, h4, h5⟩ := h
  exact ⟨h1, by omega, h3, h4, h5⟩

theorem closedRun_succ_free (bm : bwfs_bitmap_t) (i s l : Nat) (hfree : bm.map i = false) :
    closedRun bm (i + 1) s l ↔ closedRun bm i s l := by
  constructor
  · rintro ⟨h1, h2, h3, h4, h5⟩
    refine ⟨h1, ?_, h3, h4, h5⟩
    rcases Nat.lt_or_ge (s + l) i with h | h
    · exact h
    · have he : s + l = i := by omega
      rw [he] at h5
      rw [h5] at hfree
      cases hfree
  · intro h
    exact closedRun_mono bm i (i + 1) s l h (by omega)

theorem closedRun_succ_occ (bm : bwfs_bitmap_t) (i s l : Nat) (hocc : bm.map i = true) :
    closedRun bm (i + 1) s l ↔
      (closedRun bm i s l ∨
        (0 < freeSuffixLen bm i ∧ s = i - freeSuffixLen bm i ∧ l = freeSuffixLen bm i)) := by
  constructor
  · rintro ⟨h1, h2, h3, h4, h5⟩
    rcases Nat.lt_or_ge (s + l) i with h | h
    · exact Or.inl ⟨h1, h, h3, h4, h5⟩
    · have he : s + l = i := by omega
      have hfsl : freeSuffixLen bm i = i - s := by
        apply fsl_eq bm i s (by omega)
        · intro j hj1 hj2
          have := h3 (j - s) (by omega)
          have harith : s + (j - s) = j := by omega
          rw [harith] at this
          exact this
        · exact h4
      right
      constructor
      · omega
      · constructor
        · omega
        · omega
  · rintro (h | ⟨h1, h2, h3⟩)
    · exact closedRun_mono bm i (i + 1) s l h (by omega)
    · subst h2
      subst h3
      have hle := fsl_le bm i
      refine ⟨h1, by omega, ?_, ?_, ?_⟩
      · intro j hj
        apply fsl_free bm i
        · omega
        · omega
      · rcases Nat.eq_zero_or_pos (i - freeSuffixLen bm i) with hz | hp
        · exact Or.inl hz
        · right
          have := fsl_boundary bm i (by omega)
          exact this
      · have harith : i - freeSuffixLen bm i + freeSuffixLen bm i = i := by omega
        rw [harith]
        exact hocc

theorem isMaxRun_iff (bm : bwfs_bitmap_t) (s l : Nat) :
    isMaxRun bm s l ↔
      (closedRun bm bm.total_blocks s l ∨
        (0 < freeSuffixLen bm bm.total_blocks ∧
          s = bm.total_blocks - freeSuffixLen bm bm.total_blocks ∧
          l = freeSuffixLen bm bm.total_blocks)) := by
  constructor
  · rintro ⟨h1, h2, h3, h4, h5⟩
    rcases Nat.lt_or_ge (s + l) bm.total_blocks with h | h
    · left
      rcases h5 with he | hm
      · omega
      · exact ⟨h1, h, h3, h4, hm⟩
    · have he : s + l = bm.total_blocks := by omega
      have hfsl : freeSuffixLen bm bm.total_blocks = bm.total_blocks - s := by
        apply fsl_eq bm bm.total_blocks s (by omega)
        · intro j hj1 hj2
          have := h3 (j - s) (by omega)
          have harith : s + (j - s) = j := by omega
          rw [harith] at this
          exact this
        · exact h4
      right
      refine ⟨by omega, by omega, by omega⟩
  · rintro (⟨h1, h2, h3, h4, h5⟩ | ⟨h1, h2, h3⟩)
    · exact ⟨h1, by omega, h3, h4, Or.inr h5⟩
    · subst h2
      subst h3
      have hle := fsl_le bm bm.total_blocks
      refine ⟨h1, by omega, ?_, ?_, Or.inl (by omega)⟩
      · intro j hj
        apply fsl_free bm bm.total_blocks
        · omega
        · omega
      · rcases Nat.eq_zero_or_pos (bm.total_blocks - freeSuffixLen bm bm.total_blocks) with hz | hp
        · exact Or.inl hz
        · exact Or.inr (fsl_boundary bm bm.total_blocks (by omega))

theorem wfInv_zero (bm : bwfs_bitmap_t) (ml : Nat) :
    wfInv bm ml 0 ⟨UINT32_MAX, 0, 0, 0⟩ := by
  refine ⟨rfl, ?_, Or.inl ⟨rfl, rfl, ?_⟩⟩
  · intro h
    dsimp only at h
    omega
  · intro s l hcl hml
    obtain ⟨_, h2, _⟩ := hcl
    omega

theorem wfInv_step (bm : bwfs_bitmap_t) (ml i : Nat) (st : WFState)
    (h : wfInv bm ml i st) : wfInv bm ml (i + 1) (wfStep bm ml st i) := by
  obtain ⟨hc, hcs, hbest⟩ := h
  by_cases hfree : bm.map i = false
  · -- free block: the current run grows, best is untouched
    have hstep : wfStep bm ml st i =
        { st with cur_start := if st.cur_len = 0 then i else st.cur_start,
                  cur_len := st.cur_len + 1 } := by
      simp [wfStep, bwfs_bm_test, hfree]
    rw [hstep]
    refine ⟨?_, ?_, ?_⟩
    · dsimp only
      simp only [freeSuffixLen, if_pos hfree]
      omega
    · intro hpos
      dsimp only
      by_cases hz : st.cur_len = 0
      · simp only [if_pos hz]
        omega
      · simp only [if_neg hz]
        have := hcs (by omega)
        omega
    · dsimp only
      rcases hbest with ⟨hb1, hb2, hb3⟩ | ⟨hcl, hml, hbound, hties⟩
      · left
        refine ⟨hb1, hb2, ?_⟩
        intro s l hclr hmll
        exact hb3 s l ((closedRun_succ_free bm i s l hfree).mp hclr) hmll
      · right
        refine ⟨(closedRun_succ_free bm i _ _ hfree).mpr hcl, hml, ?_, ?_⟩
        · intro s l hclr hmll
          exact hbound s l ((closedRun_succ_free bm i s l hfree).mp hclr) hmll
        · intro s hclr
          exact hties s ((closedRun_succ_free bm i s _ hfree).mp hclr)
  · -- occupied block: the current run (if any) closes here
    have hocc : bm.map i = true := by
      cases hmi : bm.map i
      · exact absurd hmi hfree
      · rfl
    have hfsl1 : freeSuffixLen bm (i + 1) = 0 := by
      simp only [freeSuffixLen]
      rw [if_neg hfree]
    by_cases hcond : ml ≤ st.cur_len ∧ st.best_len < st.cur_len
    · have hstep : wfStep bm ml st i =
          { best_start := st.cur_start, best_len := st.cur_len,
            cur_start := st.cur_start, cur_len := 0 } := by
        simp [wfStep, bwfs_bm_test, hocc, hcond]
      rw [hstep]
      have hpos : 0 < st.cur_len := by omega
      have hstart : st.cur_start = i - st.cur_len := by
        have := hcs hpos
        omega
      have hnew : closedRun bm (i + 1) st.cur_start st.cur_len := by
        rw [closedRun_succ_occ bm i _ _ hocc]
        right
        refine ⟨by omega, by omega, hc⟩
      refine ⟨?_, ?_, ?_⟩
      · dsimp only
        omega
      · intro hx
        dsimp only at hx
        omega
      · right
        dsimp only
        refine ⟨hnew, hcond.1, ?_, ?_⟩
        · intro s l hclr hmll
          rcases (closedRun_succ_occ bm i s l hocc).mp hclr with hold | ⟨hp, hs2, hl2⟩
          · rcases hbest with ⟨_, _, hb3⟩ | ⟨_, _, hbound, _⟩
            · exact absurd (hb3 s l hold hmll) not_false
            · have := hbound s l hold hmll
              omega
          · omega
        · intro s hclr
          rcases (closedRun_succ_occ bm i s _ hocc).mp hclr with hold | ⟨hp, hs2, _⟩
          · rcases hbest with ⟨_, _, hb3⟩ | ⟨_, _, hbound, _⟩
            · exact absurd (hb3 s st.cur_len hold hcond.1) not_false
            · have := hbound s st.cur_len hold hcond.1
              omega
          · omega
    · have hstep : wfStep bm ml st i = { st with cur_len := 0 } := by
        simp [wfStep, bwfs_bm_test, hocc, hcond]
      rw [hstep]
      refine ⟨?_, ?_, ?_⟩
      · dsimp only
        omega
      · intro hx
        dsimp only at hx
        omega
      · dsimp only
        rcases hbest with ⟨hb1, hb2, hb3⟩ | ⟨hcl, hml, hbound, hties⟩
        · left
          refine ⟨hb1, hb2, ?_⟩
          intro s l hclr hmll
          rcases (closedRun_succ_occ bm i s l hocc).mp hclr with hold | ⟨hp, hs2, hl2⟩
          · exact hb3 s l hold hmll
          · subst hl2
            rw [hc] at hcond
            rw [hb2] at hcond
            exact absurd ⟨hmll, by omega⟩ hcond
        · right
          refine ⟨closedRun_mono bm i (i + 1) _ _ hcl (by omega), hml, ?_, ?_⟩
          · intro s l hclr hmll
            rcases (closedRun_succ_occ bm i s l hocc).mp hclr with hold | ⟨hp, hs2, hl2⟩
            · exact hbound s l hold hmll
            · subst hl2
              rw [hc] at hcond
              have hnot : ¬ st.best_len < freeSuffixLen bm i := fun hlt => hcond ⟨hmll, hlt⟩
              omega
          · intro s hclr
            rcases (closedRun_succ_occ bm i s _ hocc).mp hclr with hold | ⟨hp, hs2, heq⟩
            · exact hties s hold
            · obtain ⟨_, hcl2, _, _, _⟩ := hcl
              omega

theorem wfInv_foldl (bm : bwfs_bitmap_t) (ml n : Nat) :
    wfInv bm ml n ((List.range n).foldl (wfStep bm ml) ⟨UINT32_MAX, 0, 0, 0⟩) := by
  induction n with
  | zero => exact wfInv_zero bm ml
  | succ k ih =>
    rw [List.range_succ, List.foldl_append]
    exact wfInv_step bm ml k _ ih

theorem find_worst_fit_spec (bm : bwfs_bitmap_t) (ml : Nat) :
    ((find_worst_fit bm ml).1 = UINT32_MAX ∧ (find_worst_fit bm ml).2 = 0 ∧
      ∀ s l, isMaxRun bm s l → ml ≤ l → False) ∨
    (isMaxRun bm (find_worst_fit bm ml).1 (find_worst_fit bm ml).2 ∧
      ml ≤ (find_worst_fit bm ml).2 ∧
      (∀ s l, isMaxRun bm s l → ml ≤ l → l ≤ (find_worst_fit bm ml).2) ∧
      (∀ s, isMaxRun bm s (find_worst_fit bm ml).2 → (find_worst_fit bm ml).1 ≤ s)) := by
  have hinv := wfInv_foldl bm ml bm.total_blocks
  obtain ⟨hc, hcs, hbest⟩ := hinv
  set st := (List.range bm.total_blocks).foldl (wfStep bm ml) ⟨UINT32_MAX, 0, 0, 0⟩ with hst
  by_cases hcond : ml ≤ st.cur_len ∧ st.best_len < st.cur_len
  · -- the trailing free run wins
    have hfwf : find_worst_fit bm ml = (st.cur_start, st.cur_len) := by
      simp only [find_worst_fit, ← hst]
      rw [if_pos hcond]
    rw [hfwf]
    have hpos : 0 < st.cur_len := by omega
    have hstart := hcs hpos
    have hnew : isMaxRun bm st.cur_start st.cur_len := by
      rw [isMaxRun_iff]
      right
      refine ⟨by omega, by omega, hc⟩
    right
    refine ⟨hnew, hcond.1, ?_, ?_⟩
    · intro s l hmr hmll
      rcases (isMaxRun_iff bm s l).mp hmr with hold | ⟨hp, hs2, hl2⟩
      · rcases hbest with ⟨_, _, hb3⟩ | ⟨_, _, hbound, _⟩
        · exact absurd (hb3 s l hold hmll) not_false
        · have := hbound s l hold hmll
          omega
      · omega
    · intro s hmr
      rcases (isMaxRun_iff bm s _).mp hmr with hold | ⟨hp, hs2, _⟩
      · rcases hbest with ⟨_, _, hb3⟩ | ⟨_, _, hbound, _⟩
        · exact absurd (hb3 s st.cur_len hold hcond.1) not_false
        · have := hbound s st.cur_len hold hcond.1
          omega
      · omega
  · have hfwf : find_worst_fit bm ml = (st.best_start, st.best_len) := by
      simp only [find_worst_fit, ← hst]
      rw [if_neg hcond]
    rw [hfwf]
    rcases hbest with ⟨hb1, hb2, hb3⟩ | ⟨hcl, hml, hbound, hties⟩
    · left
      refine ⟨hb1, hb2, ?_⟩
      intro s l hmr hmll
      rcases (isMaxRun_iff bm s l).mp hmr with hold | ⟨hp, hs2, hl2⟩
      · exact hb3 s l hold hmll
      · subst hl2
        rw [hc] at hcond
        rw [hb2] at hcond
        exact absurd ⟨hmll, by omega⟩ hcond
    · right
      refine ⟨(isMaxRun_iff bm _ _).mpr (Or.inl hcl), hml, ?_, ?_⟩
      · intro s l hmr hmll
        rcases (isMaxRun_iff bm s l).mp hmr with hold | ⟨hp, hs2, hl2⟩
        · exact hbound s l hold hmll
        · subst hl2
          rw [hc] at hcond
          have hnot : ¬ st.best_len < freeSuffixLen bm bm.total_blocks :=
            fun hlt => hcond ⟨hmll, hlt⟩
          omega
      · intro s hmr
        rcases (isMaxRun_iff bm s _).mp hmr with hold | ⟨hp, hs2, heq⟩
        · exact hties s hold
        · obtain ⟨_, hcl2, _, _, _⟩ := hcl
          omega

theorem foldl_set_true (bm : bwfs_bitmap_t) (start count : Nat) :
    ∀ j, ((List.range count).foldl (fun b i => bwfs_bm_set b (start + i) true) bm).map j =
      if start ≤ j ∧ j < start + count then true else bm.map j := by
  induction count with
  | zero =>
    intro j
    rw [if_neg (by omega)]
    rfl
  | succ k ih =>
    intro j
    have hhead : ∀ (b : bwfs_bitmap_t) (c : Nat),
        (bwfs_bm_set b c true).map j = if j = c then true else b.map j := fun b c => rfl
    rw [List.range_succ, List.foldl_append, List.foldl_cons, List.foldl_nil, hhead]
    by_cases hj : j = start + k
    · rw [if_pos hj, if_pos (by omega)]
    · rw [if_neg hj, ih j]
      by_cases hin : start ≤ j ∧ j < start + k
      · rw [if_pos hin, if_pos (by omega)]
      · rw [if_neg hin, if_neg (by omega)]


/-- C1: for every bitmap `B` and `count` with `1 ≤ count ≤
longest_free_run(B)` (stated as: some maximal free run has length `≥
count`), `bwfs_alloc_blocks(B, count)` returns the start of the longest
maximal run of free bits of length `≥ count` with ties broken by lowest
start (the returned start carries a maximal run whose length bounds every
other maximal run, and no maximal run of that length starts lower);
afterwards exactly the bits `[start, start+count)` are newly set and every
other bit is unchanged. -/
theorem C1_alloc_blocks_worst_fit (bm : bwfs_bitmap_t) (count : Nat)
    (htot : bm.total_blocks ≤ UINT32_MAX) (hc : 1 ≤ count)
    (hrun : ∃ s l, isMaxRun bm s l ∧ count ≤ l) :
    ∃ L, count ≤ L ∧ isMaxRun bm (bwfs_alloc_blocks bm count).1 L ∧
      (∀ s l, isMaxRun bm s l → l ≤ L) ∧
      (∀ s, isMaxRun bm s L → (bwfs_alloc_blocks bm count).1 ≤ s) ∧
      (∀ j, (bwfs_alloc_blocks bm count).1 ≤ j → j < (bwfs_alloc_blocks bm count).1 + count →
        bm.map j = false ∧ (bwfs_alloc_blocks bm count).2.map j = true) ∧
      (∀ j, j < (bwfs_alloc_blocks bm count).1 ∨ (bwfs_alloc_blocks bm count).1 + count ≤ j →
        (bwfs_alloc_blocks bm count).2.map j = bm.map j) := by
  rcases find_worst_fit_spec bm count with ⟨_, _, hnone⟩ | ⟨hmr, hml, hbound, hties⟩
  · obtain ⟨s, l, hsl, hcl⟩ := hrun
    exact absurd (hnone s l hsl hcl) not_false
  · have hne : (find_worst_fit bm count).1 ≠ UINT32_MAX := by
      obtain ⟨hl1, hl2, _, _, _⟩ := hmr
      omega
    have halloc : bwfs_alloc_blocks bm count =
        ((find_worst_fit bm count).1,
          (List.range count).foldl
            (fun b i => bwfs_bm_set b ((find_worst_fit bm count).1 + i) true) bm) := by
      simp only [bwfs_alloc_blocks]
      rw [if_neg hne]
    rw [halloc]
    refine ⟨(find_worst_fit bm count).2, hml, hmr, ?_, hties, ?_, ?_⟩
    · intro s l hsl
      by_cases hml2 : count ≤ l
      · exact hbound s l hsl hml2
      · omega
    · intro j h1 h2
      constructor
      · obtain ⟨_, _, hfree, _, _⟩ := hmr
        have := hfree (j - (find_worst_fit bm count).1) (by omega)
        have harith : (find_worst_fit bm count).1 + (j - (find_worst_fit bm count).1) = j := by
          omega
        rw [harith] at this
        exact this
      · rw [foldl_set_true bm _ count j]
        rw [if_pos ⟨h1, h2⟩]
    · intro j hj
      rw [foldl_set_true bm _ count j]
      rw [if_neg (by omega)]

/-- C1 witness: the hypotheses of `C1_alloc_blocks_worst_fit` hold for the
concrete bitmap `bmAllocW` (blocks 0 and 1 occupied out of 8) with `count
= 2`, and the theorem applies there. -/
theorem C1_alloc_blocks_worst_fit_witness :
    (bmAllocW.total_blocks ≤ UINT32_MAX ∧ 1 ≤ 2 ∧
      (∃ s l, isMaxRun bmAllocW s l ∧ 2 ≤ l)) ∧
    (∃ L, 2 ≤ L ∧ isMaxRun bmAllocW (bwfs_alloc_blocks bmAllocW 2).1 L ∧
      (∀ s l, isMaxRun bmAllocW s l → l ≤ L) ∧
      (∀ s, isMaxRun bmAllocW s L → (bwfs_alloc_blocks bmAllocW 2).1 ≤ s) ∧
      (∀ j, (bwfs_alloc_blocks bmAllocW 2).1 ≤ j →
        j < (bwfs_alloc_blocks bmAllocW 2).1 + 2 →
        bmAllocW.map j = false ∧ (bwfs_alloc_blocks bmAllocW 2).2.map j = true) ∧
      (∀ j, j < (bwfs_alloc_blocks bmAllocW 2).1 ∨
          (bwfs_alloc_blocks bmAllocW 2).1 + 2 ≤ j →
        (bwfs_alloc_blocks bmAllocW 2).2.map j = bmAllocW.map j)) :=
  ⟨⟨by decide, by decide, ⟨2, 6, by decide, by decide⟩⟩,
    C1_alloc_blocks_worst_fit bmAllocW 2 (by decide) (by decide)
      ⟨2, 6, by decide, by decide⟩⟩

/-- C4: if no maximal run of free bits has length `≥ count`,
`bwfs_alloc_blocks(B, count)` returns `UINT32_MAX` and leaves every bit of
the bitmap unchanged. -/
theorem C4_alloc_blocks_reject (bm : bwfs_bitmap_t) (count : Nat)
    (h : ∀ s l, isMaxRun bm s l → l < count) :
    (bwfs_alloc_blocks bm count).1 = UINT32_MAX ∧
    ∀ j, (bwfs_alloc_blocks bm count).2.map j = bm.map j := by
  rcases find_worst_fit_spec bm count with ⟨h1, _, _⟩ | ⟨hmr, hml, _, _⟩
  · have halloc : bwfs_alloc_blocks bm count = (UINT32_MAX, bm) := by
      simp only [bwfs_alloc_blocks]
      rw [if_pos h1]
    rw [halloc]
    exact ⟨rfl, fun j => rfl⟩
  · have := h _ _ hmr
    omega

/-- C4 witness: the hypothesis of `C4_alloc_blocks_reject` holds for the
fully occupied bitmap `bmFullW` with `count = 1` (no free run at all), and
the theorem applies there. -/
theorem C4_alloc_blocks_reject_witness :
    (∀ s l, isMaxRun bmFullW s l → l < 1) ∧
    ((bwfs_alloc_blocks bmFullW 1).1 = UINT32_MAX ∧
      ∀ j, (bwfs_alloc_blocks bmFullW 1).2.map j = bmFullW.map j) := by
  have h : ∀ s l, isMaxRun bmFullW s l → l < 1 := by
    intro s l hr
    have h0 := hr.2.2.1 0 hr.1
    simp [bmFullW] at h0
  exact ⟨h, C4_alloc_blocks_reject bmFullW 1 h⟩

/-- C2 (code bug): after `mkfs -b 16` (the `part_003` formatter) on an
empty directory, the final `create_all_blocks` pass truncates every block
file — including blocks 0, 1 and 2 that were just persisted — so the
superblock does not read back (`BadMagic`, reported as `BWFS_ERR_FULL`),
`fsck` exits 8 instead of 0, and the persisted bitmap has no bits set
instead of `{0,1,2}`.  The root inode number itself was 2, as the claim
expects. -/
theorem C2_mkfs_then_fsck_fails :
    (mkfs_part003 16 emptyDisk).isSome = true ∧
    ((mkfs_part003 16 emptyDisk).getD (0, emptyDisk)).1 = 2 ∧
    (bwfs_read_superblock ((mkfs_part003 16 emptyDisk).getD (0, emptyDisk)).2).1 ≠ BWFS_OK ∧
    (fsck_main ((mkfs_part003 16 emptyDisk).getD (0, emptyDisk)).2 false).1 = 8 ∧
    (∀ i, i < 16 →
      persistedBit ((mkfs_part003 16 emptyDisk).getD (0, emptyDisk)).2 16 i = some false) := by
  decide

/-- C3 (code bug): resizing an empty inode to 3 blocks on the bitmap
`bmResizeBug` (free blocks 1 and 3 are not contiguous) fails with
`BWFS_ERR_FULL` as expected, and `block_count`/`size` are unchanged, but
the rollback frees the contiguous range starting at `blocks[0]` instead of
the blocks actually allocated in the call: block 3 (allocated in the call,
recorded in `blocks[1]`) stays set in the bitmap, while block 2 (never
allocated in the call, owned by someone else) is cleared. -/
theorem C3_resize_rollback_frees_wrong_blocks :
    (bwfs_inode_resize bmResizeBug inodeEmpty2 375000 emptyDisk).1 = BWFS_ERR_FULL ∧
    bmResizeBug.map 1 = false ∧ bmResizeBug.map 3 = false ∧
    (bwfs_inode_resize bmResizeBug inodeEmpty2 375000 emptyDisk).2.2.1.blocks 1 = 3 ∧
    (bwfs_inode_resize bmResizeBug inodeEmpty2 375000 emptyDisk).2.1.map 3 = true ∧
    bmResizeBug.map 2 = true ∧
    (bwfs_inode_resize bmResizeBug inodeEmpty2 375000 emptyDisk).2.1.map 2 = false ∧
    (bwfs_inode_resize bmResizeBug inodeEmpty2 375000 emptyDisk).2.2.1.block_count =
      inodeEmpty2.block_count ∧
    (bwfs_inode_resize bmResizeBug inodeEmpty2 375000 emptyDisk).2.2.1.size =
      inodeEmpty2.size := by
  decide

/-- C5: writing a buffer of length `≤ 125000` to a block and reading the
same length returns exactly the buffer, and any longer read up to the
block size returns the buffer followed by zero bytes. -/
theorem C5_block_roundtrip (d : Disk) (id : Nat) (buf : List Nat)
    (h : buf.length ≤ BWFS_BLOCK_SIZE_BYTES) :
    ∃ d2, util_write_block d id buf = some d2 ∧
      util_read_block d2 id buf.length = some buf ∧
      ∀ len, buf.length ≤ len → len ≤ BWFS_BLOCK_SIZE_BYTES →
        util_read_block d2 id len = some (buf ++ List.replicate (len - buf.length) 0) := by
  have hw : util_write_block d id buf =
      some (fun b => if b = id then mkBlockFile buf else d b) := by
    simp only [util_write_block]
    rw [if_neg (Nat.not_lt.mpr h)]
  refine ⟨_, hw, ?_, ?_⟩
  · have h0 : util_read_block (fun b => if b = id then mkBlockFile buf else d b) id buf.length =
        some ((List.range buf.length).map (mkBlockFile buf).data) := by
      simp only [util_read_block]
      rw [if_neg (Nat.not_lt.mpr h)]
      simp [mkBlockFile, BWFS_BLOCK_SIZE_BYTES]
    rw [h0]
    congr 1
    have := range_map_pad buf buf.length (Nat.le_refl _)
    simpa [mkBlockFile] using this
  · intro len h1 h2
    have h0 : util_read_block (fun b => if b = id then mkBlockFile buf else d b) id len =
        some ((List.range len).map (mkBlockFile buf).data) := by
      simp only [util_read_block]
      rw [if_neg (Nat.not_lt.mpr h2)]
      simp [mkBlockFile, BWFS_BLOCK_SIZE_BYTES]
    rw [h0]
    congr 1
    have := range_map_pad buf len h1
    simpa [mkBlockFile] using this

/-- C5 witness: the hypothesis of `C5_block_roundtrip` holds for the
3-byte buffer `[1, 2, 3]` written to block 0 of an empty directory, and
the theorem applies there. -/
theorem C5_block_roundtrip_witness :
    ([1, 2, 3] : List Nat).length ≤ BWFS_BLOCK_SIZE_BYTES ∧
    (∃ d2, util_write_block emptyDisk 0 [1, 2, 3] = some d2 ∧
      util_read_block d2 0 ([1, 2, 3] : List Nat).length = some [1, 2, 3] ∧
      ∀ len, ([1, 2, 3] : List Nat).length ≤ len → len ≤ BWFS_BLOCK_SIZE_BYTES →
        util_read_block d2 0 len =
          some ([1, 2, 3] ++ List.replicate (len - ([1, 2, 3] : List Nat).length) 0)) :=
  ⟨by decide, C5_block_roundtrip emptyDisk 0 [1, 2, 3] (by decide)⟩

/-- C6 counterexample: in the completely full directory `fullDirState` no
occupied entry's name matches `[97]`, yet `bwfs_dir_add` does not succeed
(it returns `BWFS_ERR_FULL`), so "add succeeds iff no current entry has
that name" fails as stated. -/
theorem C6_counterexample :
    ¬ hasDup fullDirState.entries [97] ∧
    (bwfs_dir_add fullDirState [97] 7).1 ≠ BWFS_OK := by
  decide

/-- C6 (amended): for a single-block directory state with at least one
free slot and a nonzero `child_ino`, `bwfs_dir_add(name, child_ino)`
succeeds iff no occupied entry has a name equal to `name` under the
255-byte length-limited comparison, and after a successful add
`bwfs_dir_lookup(name)` returns `child_ino`. -/
theorem C6_dir_add_amended (st : DirState) (name : List Nat) (child_ino : Nat)
    (hfree : hasFree st.entries) (hchild : child_ino ≠ 0) :
    ((bwfs_dir_add st name child_ino).1 = BWFS_OK ↔ ¬ hasDup st.entries name) ∧
    ((bwfs_dir_add st name child_ino).1 = BWFS_OK →
      bwfs_dir_lookup (bwfs_dir_add st name child_ino).2 name = child_ino) := by
  by_cases hdup : hasDup st.entries name
  · have hscan : scanEntries name st.entries 0 none = .error () :=
      (scanEntries_error_iff name st.entries 0 none).mpr hdup
    simp only [bwfs_dir_add, hscan]
    constructor
    · constructor
      · intro h
        exact absurd h (by decide)
      · intro h
        exact absurd hdup h
    · intro h
      exact absurd h (by decide)
  · have hnodup : ∀ e ∈ st.entries, e.ino ≠ 0 → nameMatches e.name name = false := by
      intro e he hz
      by_contra hb
      exact hdup ⟨e, he, hz, by simpa using hb⟩
    have hscan : scanEntries name st.entries 0 none = .ok (firstFreeIdx st.entries 0) :=
      scanEntries_none name st.entries hdup 0
    obtain ⟨idx, hidx⟩ : ∃ idx, firstFreeIdx st.entries 0 = some idx := by
      have := (firstFreeIdx_isSome_iff st.entries 0).mpr hfree
      exact Option.isSome_iff_exists.mp this
    rw [hidx] at hscan
    simp only [bwfs_dir_add, hscan]
    refine ⟨by simp [hdup], ?_⟩
    intro _
    simp only [bwfs_dir_lookup]
    rw [find_after_add st.entries name child_ino hchild idx hidx hnodup]

/-- C6 witness: the hypotheses of `C6_dir_add_amended` hold for the empty
directory `freeDirState`, name `[97]` and child inode 7, and the theorem
applies there. -/
theorem C6_dir_add_amended_witness :
    hasFree freeDirState.entries ∧ (7 : Nat) ≠ 0 ∧
    (((bwfs_dir_add freeDirState [97] 7).1 = BWFS_OK ↔
        ¬ hasDup freeDirState.entries [97]) ∧
      ((bwfs_dir_add freeDirState [97] 7).1 = BWFS_OK →
        bwfs_dir_lookup (bwfs_dir_add freeDirState [97] 7).2 [97] = 7)) :=
  ⟨by decide, by decide, C6_dir_add_amended freeDirState [97] 7 (by decide) (by decide)⟩

/-- C7 (code bug): unlinking the file `fileUnlinkBug` (inode block 2, data
blocks listed as `blocks[0] = 5`, `blocks[1] = 3`) on the bitmap
`bmUnlinkBug` does not clear the bits of the listed data blocks: it clears
the contiguous range `[5, 7)`, so the listed block 3 stays set (leaked)
while block 6, which belongs to no entry of `blocks[]`, is cleared. -/
theorem C7_unlink_frees_wrong_blocks :
    fileUnlinkBug.blocks 1 = 3 ∧ bmUnlinkBug.map 3 = true ∧
    (op_unlink_free bmUnlinkBug 2 fileUnlinkBug).map 3 = true ∧
    bmUnlinkBug.map 6 = true ∧
    (∀ i, i < fileUnlinkBug.block_count → fileUnlinkBug.blocks i ≠ 6) ∧
    (op_unlink_free bmUnlinkBug 2 fileUnlinkBug).map 6 = false ∧
    (op_unlink_free bmUnlinkBug 2 fileUnlinkBug).map 2 = false := by
  decide

/-- C9: `bwfs_inode_resize` writes only block 1 (the bitmap) and the
inode's own block to disk, on every path (success, rollback, contraction,
no-op): any other block file — in particular every newly attached or
freed data block — keeps exactly the contents it had before the call. -/
theorem C9_resize_disk_frame (bm : bwfs_bitmap_t) (inode : bwfs_inode_t) (new_size : Nat)
    (d : Disk) (b : Nat) (hb1 : b ≠ 1) (hb2 : b ≠ inode.ino) :
    (bwfs_inode_resize bm inode new_size d).2.2.2 b = d b := by
  simp only [bwfs_inode_resize]
  by_cases hA : BWFS_DIRECT_BLOCKS <
      (new_size + BWFS_BLOCK_SIZE_BYTES - 1) / BWFS_BLOCK_SIZE_BYTES
  · rw [if_pos hA]
  · rw [if_neg hA]
    by_cases hB : inode.block_count <
        (new_size + BWFS_BLOCK_SIZE_BYTES - 1) / BWFS_BLOCK_SIZE_BYTES
    · rw [if_pos hB]
      rcases hloop : resizeLoop inode.block_count
          ((new_size + BWFS_BLOCK_SIZE_BYTES - 1) / BWFS_BLOCK_SIZE_BYTES -
            inode.block_count) bm inode 0 with e | r
      · exact write_bitmap_frame _ d b hb1
      · have hino : r.2.ino = inode.ino := resizeLoop_ok_ino _ _ _ _ _ _ hloop
        exact resizeFinish_frame _ _ d b hb1 (by simpa [hino] using hb2)
    · rw [if_neg hB]
      by_cases hC : (new_size + BWFS_BLOCK_SIZE_BYTES - 1) / BWFS_BLOCK_SIZE_BYTES <
          inode.block_count
      · rw [if_pos hC]
        exact resizeFinish_frame _ _ d b hb1 (by simpa [zero_blocks] using hb2)
      · rw [if_neg hC]
        exact resizeFinish_frame _ _ d b hb1 hb2

/-- C9 witness: the hypotheses of `C9_resize_disk_frame` hold for block 5
(neither the bitmap block 1 nor the inode's own block 2) during a resize
of `inodeResizeW` to one data block, and the theorem applies there. -/
theorem C9_resize_disk_frame_witness :
    (5 : Nat) ≠ 1 ∧ (5 : Nat) ≠ inodeResizeW.ino ∧
    (bwfs_inode_resize bmResizeW inodeResizeW 1000 emptyDisk).2.2.2 5 = emptyDisk 5 :=
  ⟨by decide, by decide,
    C9_resize_disk_frame bmResizeW inodeResizeW 1000 emptyDisk 5 (by decide) (by decide)⟩

/-- C10: `bwfs_dir_add` does not validate `child_ino`: adding a fresh name
(no occupied entry matches it) with `child_ino = 0` to a directory with a
free slot returns `BWFS_OK` and grows `size` by one 260-byte record, yet
the written slot is indistinguishable from a free slot, so
`bwfs_dir_lookup` of that name returns `UINT32_MAX` and `bwfs_dir_remove`
of that name reports not-found and changes nothing. -/
theorem C10_dir_add_zero_ino (st : DirState) (name : List Nat)
    (hfree : hasFree st.entries) (hfresh : ¬ hasDup st.entries name) :
    (bwfs_dir_add st name 0).1 = BWFS_OK ∧
    (bwfs_dir_add st name 0).2.size = st.size + 260 ∧
    bwfs_dir_lookup (bwfs_dir_add st name 0).2 name = UINT32_MAX ∧
    (bwfs_dir_remove (bwfs_dir_add st name 0).2 name).1 = DIR_NOT_FOUND ∧
    (bwfs_dir_remove (bwfs_dir_add st name 0).2 name).2 = (bwfs_dir_add st name 0).2 := by
  have hnodup : ∀ e ∈ st.entries, e.ino ≠ 0 → nameMatches e.name name = false := by
    intro e he hz
    by_contra hb
    exact hfresh ⟨e, he, hz, by simpa using hb⟩
  have hscan : scanEntries name st.entries 0 none = .ok (firstFreeIdx st.entries 0) :=
    scanEntries_none name st.entries hfresh 0
  obtain ⟨idx, hidx⟩ : ∃ idx, firstFreeIdx st.entries 0 = some idx := by
    have := (firstFreeIdx_isSome_iff st.entries 0).mpr hfree
    exact Option.isSome_iff_exists.mp this
  rw [hidx] at hscan
  simp only [bwfs_dir_add, hscan]
  refine ⟨trivial, trivial, ?_, ?_, ?_⟩
  · simp only [bwfs_dir_lookup]
    rw [find_after_add_zero st.entries name (strncpyName name) idx hnodup]
  · simp only [bwfs_dir_remove]
    rw [findIdx_after_add_zero st.entries name (strncpyName name) idx hnodup]
  · simp only [bwfs_dir_remove]
    rw [findIdx_after_add_zero st.entries name (strncpyName name) idx hnodup]

/-- C10 witness: the hypotheses of `C10_dir_add_zero_ino` hold for the
empty directory `freeDirState` and the fresh name `[98]`, and the theorem
applies there. -/
theorem C10_dir_add_zero_ino_witness :
    hasFree freeDirState.entries ∧ ¬ hasDup freeDirState.entries [98] ∧
    ((bwfs_dir_add freeDirState [98] 0).1 = BWFS_OK ∧
      (bwfs_dir_add freeDirState [98] 0).2.size = freeDirState.size + 260 ∧
      bwfs_dir_lookup (bwfs_dir_add freeDirState [98] 0).2 [98] = UINT32_MAX ∧
      (bwfs_dir_remove (bwfs_dir_add freeDirState [98] 0).2 [98]).1 = DIR_NOT_FOUND ∧
      (bwfs_dir_remove (bwfs_dir_add freeDirState [98] 0).2 [98]).2 =
        (bwfs_dir_add freeDirState [98] 0).2) :=
  ⟨by decide, by decide, C10_dir_add_zero_ino freeDirState [98] (by decide) (by decide)⟩
